import Mathlib

/-!
# Verification of the anime catalog aggregation server

Shallow embedding of the reconciliation core of the repository:

* `src/unnamed/part_000` — the AniList/Anify-backed express route handlers
  (cache, `normalizeBaseTitle`, `gql`, `pickEdge`, `getInfo` season chain,
  `fetchJson`, `getEpisodes` reconciliation/pagination);
* `src/server/routes/anime.ts` — the Jikan/Consumet-backed handlers
  (`pickRelation`, `buildSeasonsChain`, the retrying `fetchJson`,
  the episodes cache and pagination).

JS machine integers/floats are modelled as `Int`/`ℚ`, JS `undefined`/`null`
as `Option`, a thrown JS exception as `Except.error`, and the wall clock as
an explicit `Int` timestamp argument.
-/

namespace Koanime

/-! ## TTL cache (src/unnamed/part_000 lines 7-18)

`const cache: Record<string, { at: number; data: any }>` with
`getCached`/`setCached`.  The store is modelled as a function from keys to
optional entries, `Date.now()` as an explicit `now` argument. -/

/-- `const TTL_MS = 5 * 60 * 1000;` -/
def TTL_MS : Int := 5 * 60 * 1000

/-- One cache slot `{ at: number; data: any }`. -/
structure CacheEntry (α : Type) where
  at' : Int
  data : α
deriving Repr, DecidableEq

/-- The mutable `cache` record, as a snapshot. -/
def Cache (α : Type) := String → Option (CacheEntry α)

/-- `getCached(key)`: absent on missing entry, absent on an entry older than
`TTL_MS` (strictly), the stored data otherwise. -/
def getCached (cache : Cache α) (key : String) (now : Int) : Option α :=
  match cache key with
  | none => none
  | some entry => if now - entry.at' > TTL_MS then none else some entry.data

/-- `setCached(key, data)`: overwrite the slot with a fresh timestamp. -/
def setCached (cache : Cache α) (key : String) (now : Int) (data : α) : Cache α :=
  fun k => if k = key then some ⟨now, data⟩ else cache k

/-! ## Episodes cache of src/server/routes/anime.ts (lines 5-10, 259-264)

`EPISODES_TTL_MS = 3 * 60 * 1000`; the handler treats an entry as a hit iff
`now - cached.at < EPISODES_TTL_MS` (strict `<`, unlike `getCached` above
which expires strictly after `TTL_MS`). -/

/-- `const EPISODES_TTL_MS = 3 * 60 * 1000;` -/
def EPISODES_TTL_MS : Int := 3 * 60 * 1000

/-- The cache consultation at the top of `getEpisodes` (anime.ts):
`if (cached && now - cached.at < EPISODES_TTL_MS) return res.json(cached.data)`. -/
def episodesCacheHit (cache : Cache α) (key : String) (now : Int) : Option α :=
  match cache key with
  | none => none
  | some entry => if now - entry.at' < EPISODES_TTL_MS then some entry.data else none

/-! ## Resilient fetcher

The outcome of one underlying `fetch` attempt, as seen by the caller:
either the promise rejects (network failure, or the abort controller fired
on timeout), or an HTTP response with a status arrives whose body then
either parses as JSON or fails to parse.  `α` is the parsed JSON shape. -/

inductive FetchOutcome (α : Type) where
  /-- `fetch` rejected: network error, or abort on timeout. -/
  | netErr : FetchOutcome α
  /-- an HTTP response: status code, and the result of `r.json()`
  (`none` models a body that fails to parse as JSON). -/
  | resp (status : Nat) (body : Option α) : FetchOutcome α

/-- `Response.ok`: status in the inclusive range 200-299. -/
def respOk (status : Nat) : Bool := 200 ≤ status && status ≤ 299

/-- `fetchJson(url, timeoutMs = 8000)` of src/unnamed/part_000 lines 231-243:
`try { ... if (!r.ok) return null; return await r.json(); } catch { return null; }`.
Every failure is caught and becomes `null` (`none`); the function cannot
raise, which the `Option` return type makes structural. -/
def fetchJsonP (outcome : FetchOutcome α) : Option α :=
  match outcome with
  | .netErr => none
  | .resp status body =>
    if respOk status then
      match body with
      | some j => some j
      | none => none
    else none

/-- The result record `{ ok, status, json }` of the anime.ts `fetchJson`. -/
structure FetchResult (α : Type) where
  ok : Bool
  status : Nat
  json : Option α
deriving Repr, DecidableEq

/-- The non-retrying tail of the anime.ts `fetchJson`:
`if (!r.ok) return { ok: false, status: r.status, json: null };
const j = await r.json(); return { ok: true, status: r.status, json: j };`
— a body that fails to parse makes `await r.json()` reject, and with no
`catch` clause the exception escapes. -/
def fetchJsonDone (status : Nat) (body : Option α) : Except Unit (FetchResult α) :=
  if respOk status then
    match body with
    | some j => .ok ⟨true, status, some j⟩
    | none => .error ()
  else .ok ⟨false, status, none⟩

/-- `fetchJson(url, timeoutMs = 8000, retries = 1)` of
src/server/routes/anime.ts lines 267-282.  The body is `try { ... } finally
{ clearTimeout(timer) }` with **no catch**: a rejected `fetch` (network
error or timeout abort) and a failing `r.json()` both propagate to the
caller, modelled as `Except.error`.  A 429 status with retries remaining
recurses after the backoff sleep; `env n` is the outcome of the `n`-th
attempt. -/
def fetchJsonA (env : Nat → FetchOutcome α) :
    Nat → Nat → Except Unit (FetchResult α)
  | attempt, retries =>
    match env attempt with
    | .netErr => .error ()
    | .resp status body =>
      match retries with
      | r + 1 =>
        if status == 429 then fetchJsonA env (attempt + 1) r
        else fetchJsonDone status body
      | 0 => fetchJsonDone status body

/-- An attempt outcome that cannot make `fetchJsonA` throw: the request
does not reject, and if the status is a 2xx success the body parses. -/
def goodOutcome : FetchOutcome α → Prop
  | .netErr => False
  | .resp status body => respOk status = true → body.isSome = true

/-! ## The `gql` helper and `getTrending` (src/unnamed/part_000 lines 41-117)

`gql` throws on a non-ok response (`AniList error: ${r.status}`) and on a
GraphQL `errors` payload; a rejected `fetch` also propagates.  The outcome
of the (cache-missing) AniList round trip is therefore one of four cases. -/

inductive GqlOutcome (α : Type) where
  /-- the `fetch` to the AniList endpoint rejected. -/
  | netErr : GqlOutcome α
  /-- `!r.ok`: `throw new Error("AniList error: " + r.status)`. -/
  | httpErr (status : Nat) : GqlOutcome α
  /-- `j.errors` present: `throw new Error("AniList error: " + ...)`. -/
  | gqlErrors : GqlOutcome α
  /-- success: `j.data`. -/
  | ok (data : α) : GqlOutcome α
deriving DecidableEq

/-- Transport-level failures of the AniList round trip (timeout, network
error, non-2xx response). -/
def gqlTransportFailure : GqlOutcome α → Prop
  | .netErr => True
  | .httpErr _ => True
  | _ => False

/-- The value/exception behaviour of `gql` on a cache miss. -/
def gqlFetch : GqlOutcome α → Except String α
  | .netErr => .error "fetch failed"
  | .httpErr status => .error s!"AniList error: {status}"
  | .gqlErrors => .error "AniList error: [...]"
  | .ok data => .ok data

/-- Response body of a list endpoint: the success shape or the error shape. -/
inductive ApiResp (σ : Type) where
  | results (l : List σ)
  | err (msg : String)
deriving DecidableEq

/-- `getTrending` (src/unnamed/part_000 lines 97-117): on success respond
200 with the filtered/mapped media list, on any thrown error respond
`res.status(500).json({ error: ... })`.  The success-path shaping
`(data?.Page?.media || []).filter(m => m?.idMal || m?.id).map(mapAnilistToSummary)`
is request shaping only and is passed in as `mapResults`; the error flow is
modelled exactly. -/
def getTrendingRun (mapResults : List μ → List σ) (o : GqlOutcome (List μ)) :
    Nat × ApiResp σ :=
  match gqlFetch o with
  | .ok data => (200, .results (mapResults data))
  | .error e => (500, .err e)

/-! ## Effective page number (part_000 line 248 / anime.ts line 258)

`const page = Math.max(1, Number(req.query.page || 1) || 1);`
The query parameter cases are: absent (`undefined`, falsy), the empty
string (falsy), a string whose `Number` coercion is `NaN`, or a string
whose `Number` coercion is the numeric value `v`. -/

inductive PageParam where
  /-- `req.query.page` is `undefined`: `undefined || 1` is `1`. -/
  | missing
  /-- the empty string is falsy: `"" || 1` is `1`. -/
  | emptyStr
  /-- a string with `Number(s) = NaN`. -/
  | nonNumeric
  /-- a string with `Number(s) = v`. -/
  | numeric (v : ℚ)
deriving DecidableEq

/-- `Number(req.query.page || 1)`; `none` models `NaN`. -/
def coerceNumber : PageParam → Option ℚ
  | .missing => some 1
  | .emptyStr => some 1
  | .nonNumeric => none
  | .numeric v => some v

/-- `Math.max(1, Number(req.query.page || 1) || 1)`: `NaN` and `0` are the
falsy numbers, so `x || 1` replaces exactly them by `1`. -/
def effPage (p : PageParam) : ℚ :=
  let n : ℚ :=
    match coerceNumber p with
    | none => 1
    | some v => if v = 0 then 1 else v
  max 1 n

/-! ## Episode reconciliation (src/unnamed/part_000 lines 245-297)

The Anify response is an array of provider entries, each with a
`providerId` and an `episodes` array; raw episode fields may be missing or
non-numeric.  `num?` models the numeric value of `ep.number` after the
source's coercion chain `typeof ep.number === "number" ? ep.number :
Number(ep.number) || 0` (`none` = the coercion produced `NaN`; a string
coercing to `v` and a numeric `v` are the same `some v`). -/

structure RawEp where
  num? : Option ℚ
  id : Option String
  title : Option String
deriving Repr, DecidableEq

/-- One provider entry of the Anify `/episodes/:id` payload. -/
structure ProviderList where
  providerId : Option String
  episodes : List RawEp
deriving Repr, DecidableEq

/-- `const num = typeof ep.number === "number" ? ep.number : Number(ep.number) || 0;`
(`NaN` is falsy, so `NaN || 0` is `0`). -/
def epNumber (ep : RawEp) : ℚ :=
  match ep.num? with
  | some v => v
  | none => 0

/-- The reconciled record `{ id, number, title }` put into the map. -/
structure Episode where
  id : String
  number : ℚ
  title : Option String
deriving Repr, DecidableEq

/-- `{ id: String(ep.id ?? `${ids.id}-${num}`), number: num,
title: ep.title || undefined }` (the empty string is falsy). -/
def mkRecord (aniId : Int) (ep : RawEp) : Episode :=
  let num := epNumber ep
  { id := ep.id.getD s!"{aniId}-{num}"
    number := num
    title := match ep.title with
      | some t => if t = "" then none else some t
      | none => none }

/-- `const preferred = ["gogoanime", "zoro", "aniwatch", "animepahe", "9anime", "aniwave"];` -/
def preferred : List String :=
  ["gogoanime", "zoro", "aniwatch", "animepahe", "9anime", "aniwave"]

/-- `preferred.indexOf(p?.providerId)`: `-1` when the provider id is absent
or not in the list. -/
def providerKey (prov : ProviderList) : Int :=
  match prov.providerId with
  | none => -1
  | some pid =>
    match preferred.findIdx? (· = pid) with
    | some i => (i : Int)
    | none => -1

/-- Stable insertion step: place `x` before the first element whose key is
not smaller, so earlier list elements keep their relative order on equal
keys (ECMAScript `Array.prototype.sort` is stable). -/
def insertByKey {κ : Type} [LinearOrder κ] (key : α → κ) (x : α) : List α → List α
  | [] => [x]
  | y :: ys => if key x ≤ key y then x :: y :: ys else y :: insertByKey key x ys

/-- Stable sort by an integer key, modelling
`arr.sort((a, b) => key(a) - key(b))`. -/
def sortByKey {κ : Type} [LinearOrder κ] (key : α → κ) : List α → List α
  | [] => []
  | x :: xs => insertByKey key x (sortByKey key xs)

/-- The accumulating `Map<number, {id, number, title?}>`, in insertion
order. -/
abbrev EpMap := List (ℚ × Episode)

/-- `map.has(num)` -/
def mapHas (m : EpMap) (n : ℚ) : Bool := m.any (·.1 == n)

/-- `map.get`-style lookup (insertion order; keys are unique because `set`
is guarded by `has`). -/
def mapLookup (m : EpMap) (n : ℚ) : Option Episode :=
  (m.find? (·.1 == n)).map (·.2)

/-- `map.set(num, rec)` for a key known to be absent: appended in insertion
order. -/
def mapSet (m : EpMap) (n : ℚ) (e : Episode) : EpMap := m ++ [(n, e)]

/-- The per-episode body of the reconciliation loop:
`if (!num || map.has(num)) continue; map.set(num, {...});`. -/
def processEp (aniId : Int) (m : EpMap) (ep : RawEp) : EpMap :=
  let num := epNumber ep
  if num == 0 || mapHas m num then m
  else mapSet m num (mkRecord aniId ep)

/-- The provider/episode double loop of `getEpisodes` (lines 267-279),
fed with the providers already sorted by preference. -/
def buildMap (aniId : Int) (provs : List ProviderList) : EpMap :=
  provs.foldl (fun m prov => prov.episodes.foldl (processEp aniId) m) []

/-- `const list = Array.from(map.values()).sort((a, b) => a.number - b.number);`
applied after sorting the provider entries by
`preferred.indexOf(a?.providerId) - preferred.indexOf(b?.providerId)`. -/
def reconcileList (aniId : Int) (provs : List ProviderList) : List Episode :=
  sortByKey (·.number)
    ((buildMap aniId (sortByKey providerKey provs)).map (·.2))

/-- `const perPage = 24;` -/
def perPage : Nat := 24

/-- The pagination object of part_000 `getEpisodes` (lines 286-291):
`{ page, has_next_page: total > page * perPage,
   last_visible_page: Math.max(1, Math.ceil(total / perPage)),
   items: { count: Math.min(perPage, Math.max(0, total - start)), total, per_page: perPage } }`
with `start = (page - 1) * perPage` (ℕ subtraction is `Math.max(0, ·)`). -/
structure Pagination where
  page : Nat
  has_next_page : Bool
  last_visible_page : Nat
  count : Nat
  total : Nat
  per_page : Nat
deriving Repr, DecidableEq

/-- Build the part_000 pagination object; `Math.ceil(total / 24)` over the
naturals is `(total + 23) / 24`. -/
def buildPagination (total page : Nat) : Pagination :=
  { page := page
    has_next_page := decide (total > page * perPage)
    last_visible_page := max 1 ((total + (perPage - 1)) / perPage)
    count := min perPage (total - (page - 1) * perPage)
    total := total
    per_page := perPage }

/-- The pagination object of the anime.ts Consumet fallback (lines 347-358);
identical to `buildPagination` except that `items.count` lacks the
`Math.max(0, ·)` guard, so it is an `Int` that can be negative. -/
structure PaginationC where
  page : Nat
  has_next_page : Bool
  last_visible_page : Nat
  count : Int
  total : Nat
  per_page : Nat
deriving Repr, DecidableEq

/-- `{ page, has_next_page: total > page * perPage,
last_visible_page: Math.max(1, Math.ceil(total / perPage)),
items: { count: Math.min(perPage, total - (page - 1) * perPage), total, per_page } }`. -/
def buildPaginationC (total page : Nat) : PaginationC :=
  { page := page
    has_next_page := decide (total > page * perPage)
    last_visible_page := max 1 ((total + (perPage - 1)) / perPage)
    count := min (perPage : Int) ((total : Int) - ((page : Int) - 1) * perPage)
    total := total
    per_page := perPage }

/-- The `{ episodes, pagination }` payload. -/
structure EpisodesPayload where
  episodes : List Episode
  pagination : Option Pagination
deriving Repr, DecidableEq

/-- The data path of part_000 `getEpisodes` from the parsed provider lists
to the response payload (lines 263-293): reconcile, slice the requested
page (`list.slice(start, start + perPage)`), attach pagination. -/
def getEpisodesPayload (aniId : Int) (provs : List ProviderList) (page : Nat) :
    EpisodesPayload :=
  let list := reconcileList aniId provs
  let total := list.length
  let start := (page - 1) * perPage
  { episodes := (list.drop start).take perPage
    pagination := some (buildPagination total page) }

/-- Response body of the episodes endpoint. -/
inductive EpResp where
  | payload (p : EpisodesPayload)
  | err (msg : String)
deriving Repr, DecidableEq

/-- The part_000 `getEpisodes` handler (lines 245-297) around the data
path: `ids` is the result of `getAniIdsByMalOrAni` (whose failures are
caught internally), `cached` the episodes-cache entry if fresh, `fetched`
the Anify fetch outcome on a cache miss.  A missing id or missing data
responds 200 with `{ episodes: [], pagination: null }`; nothing on this
path throws, so the catch-all 500 branch is unreachable.  (The
`setCached` write on a successful fetch updates cache state and does not
affect the response.) -/
def getEpisodesRun (ids : Option Int) (cached : Option (List ProviderList))
    (fetched : FetchOutcome (List ProviderList)) (page : Nat) : Nat × EpResp :=
  match ids with
  | none => (200, .payload ⟨[], none⟩)
  | some aniId =>
    let data := match cached with
      | some d => some d
      | none => fetchJsonP fetched
    match data with
    | none => (200, .payload ⟨[], none⟩)
    | some provs => (200, .payload (getEpisodesPayload aniId provs page))

/-- The invariant of the accumulating map: keys are unique, and each stored
record's `number` is its key. -/
def MapInv (m : EpMap) : Prop :=
  (m.map (·.1)).Nodup ∧ ∀ p ∈ m, p.2.number = p.1

/-! ## Title normalizer (part_000 lines 20-30 = anime.ts lines 12-22)

`normalizeBaseTitle` is `String(title || "").trim()` followed by seven
`s.replace(regex, "")` steps (no `g` flag: first match only) and a final
`trim()`.  The regexes use only single-character classes (`\s`, `\d`,
`.`), case-insensitive literal words, ordered alternation, optional
groups, word boundaries `\b` and the end anchor `$`, so they are embedded
as a small backtracking matcher whose outcome list is ordered exactly like
the JS engine's backtracking order (leftmost start position first; at each
position, greedy repetition longest-first, alternatives in source order);
`replace` takes the first outcome. -/

/-- ECMAScript `\s` (also the set trimmed by `String.prototype.trim`). -/
def jsWhitespace (c : Char) : Bool :=
  c == ' ' || c == '\t' || c == '\n' || c == '\r' || c == '\x0b' || c == '\x0c' ||
  c == '\u00a0' || c == '\u1680' ||
  (decide ('\u2000' ≤ c) && decide (c ≤ '\u200a')) ||
  c == '\u2028' || c == '\u2029' || c == '\u202f' || c == '\u205f' ||
  c == '\u3000' || c == '\ufeff'

/-- ECMAScript `\d`. -/
def jsDigit (c : Char) : Bool := decide ('0' ≤ c) && decide (c ≤ '9')

/-- ECMAScript `.` without the `s` flag: any char except line terminators. -/
def jsDot (c : Char) : Bool :=
  !(c == '\n' || c == '\r' || c == '\u2028' || c == '\u2029')

/-- ECMAScript word character (for `\b`). -/
def jsWordChar (c : Char) : Bool :=
  (decide ('a' ≤ c) && decide (c ≤ 'z')) || (decide ('A' ≤ c) && decide (c ≤ 'Z')) ||
  (decide ('0' ≤ c) && decide (c ≤ '9')) || c == '_'

/-- `String.prototype.trim()`. -/
def jsTrim (l : List Char) : List Char :=
  ((l.dropWhile jsWhitespace).reverse.dropWhile jsWhitespace).reverse

/-- The regex fragments occurring in `normalizeBaseTitle`'s patterns. -/
inductive RE where
  /-- a single-character class -/
  | cls (p : Char → Bool)
  /-- greedy `p*` over a single-character class -/
  | star (p : Char → Bool)
  /-- greedy `p+` over a single-character class -/
  | plus (p : Char → Bool)
  /-- a case-insensitive literal -/
  | lit (s : List Char)
  /-- ordered alternation -/
  | alt (l r : RE)
  /-- concatenation -/
  | seq (l r : RE)
  /-- greedy `(?:r)?` -/
  | opt (r : RE)
  /-- the word boundary `\b` -/
  | wb
  /-- the end anchor `$` (no `m` flag) -/
  | eos

/-- All ways a greedy `p*` can match at the current position, longest
first.  Each outcome is `(last consumed char, remaining input)`. -/
def starOutcomes (p : Char → Bool) : Option Char → List Char →
    List (Option Char × List Char)
  | prev, [] => [(prev, [])]
  | prev, c :: rest =>
    if p c then starOutcomes p (some c) rest ++ [(prev, c :: rest)]
    else [(prev, c :: rest)]

/-- Match a case-insensitive literal (the `i` flag lower-cases both
sides; the literals here are ASCII). -/
def litMatch : List Char → Option Char → List Char →
    Option (Option Char × List Char)
  | [], prev, l => some (prev, l)
  | _ :: _, _, [] => none
  | c :: cs, _, d :: l => if d.toLower == c.toLower then litMatch cs (some d) l else none

/-- `\b`: the word-character status changes between the previous and next
character (ends of input count as non-word). -/
def isWordBoundary (prev : Option Char) (l : List Char) : Bool :=
  let before := match prev with | some c => jsWordChar c | none => false
  let after := match l with | c :: _ => jsWordChar c | [] => false
  before != after

/-- All outcomes of matching `re` at the current position, in the JS
backtracking order; the engine commits to the head. -/
def reMatch : RE → Option Char → List Char → List (Option Char × List Char)
  | .cls _, _, [] => []
  | .cls p, _, c :: rest => if p c then [(some c, rest)] else []
  | .star p, prev, l => starOutcomes p prev l
  | .plus _, _, [] => []
  | .plus p, _, c :: rest => if p c then starOutcomes p (some c) rest else []
  | .lit s, prev, l =>
    match litMatch s prev l with
    | some pr => [pr]
    | none => []
  | .alt r1 r2, prev, l => reMatch r1 prev l ++ reMatch r2 prev l
  | .seq r1 r2, prev, l => (reMatch r1 prev l).flatMap (fun pr => reMatch r2 pr.1 pr.2)
  | .opt r, prev, l => reMatch r prev l ++ [(prev, l)]
  | .wb, prev, l => if isWordBoundary prev l then [(prev, l)] else []
  | .eos, prev, l => if l.isEmpty then [(prev, l)] else []

/-- Scan for the leftmost start position with a match; return the skipped
prefix and the input remaining after the matched span. -/
def firstMatchAux (re : RE) : Option Char → List Char → List Char →
    Option (List Char × List Char)
  | prev, l, acc =>
    match (reMatch re prev l).head? with
    | some pr => some (acc.reverse, pr.2)
    | none =>
      match l with
      | [] => none
      | c :: ls => firstMatchAux re (some c) ls (c :: acc)

/-- `s.replace(re, "")` without the `g` flag: delete the first match, if
any. -/
def replaceFirst (re : RE) (l : List Char) : List Char :=
  match firstMatchAux re none l [] with
  | some pr => pr.1 ++ pr.2
  | none => l

/-- Right-nested concatenation of a non-empty fragment list. -/
def cat : List RE → RE
  | [] => .lit []
  | [r] => r
  | r :: rs => .seq r (cat rs)

/-- Ordered alternation of a non-empty fragment list. -/
def altList : List RE → RE
  | [] => .lit []
  | [r] => r
  | r :: rs => .alt r (altList rs)

/-- A case-insensitive literal from a string. -/
def litCI (s : String) : RE := .lit s.data

/-- A single literal character. -/
def chr (c : Char) : RE := .cls (· == c)

/-- `\s*` -/
def wsS : RE := .star jsWhitespace

/-- `\s+` -/
def wsP : RE := .plus jsWhitespace

/-- `\d+` -/
def digP : RE := .plus jsDigit

/-- `/\s*-\s*(Season|Cour|Part)\s*\d+$/i` -/
def reDashSeason : RE :=
  cat [wsS, chr '-', wsS, altList [litCI "Season", litCI "Cour", litCI "Part"],
    wsS, digP, .eos]

/-- `/\s*\(\s*(Season|Cour|Part)\s*\d+\s*\)$/i` -/
def reParenSeason : RE :=
  cat [wsS, chr '(', wsS, altList [litCI "Season", litCI "Cour", litCI "Part"],
    wsS, digP, wsS, chr ')', .eos]

/-- `/\s*\b(\d+)(st|nd|rd|th)\s+Season\b.*$/i` -/
def reNthSeason : RE :=
  cat [wsS, .wb, digP, altList [litCI "st", litCI "nd", litCI "rd", litCI "th"],
    wsP, litCI "Season", .wb, .star jsDot, .eos]

/-- `/\s*\bSeason\s+\d+(?:\s*Part\s*\d+)?\b.*$/i` -/
def reSeasonN : RE :=
  cat [wsS, .wb, litCI "Season", wsP, digP,
    .opt (cat [wsS, litCI "Part", wsS, digP]), .wb, .star jsDot, .eos]

/-- `/\s*\bFinal Season(?:\s*Part\s*\d+)?\b.*$/i` -/
def reFinalSeason : RE :=
  cat [wsS, .wb, litCI "Final Season",
    .opt (cat [wsS, litCI "Part", wsS, digP]), .wb, .star jsDot, .eos]

/-- `/\s+(?:II|III|IV|V|VI|VII|VIII|IX|X)$/i` -/
def reRoman : RE :=
  cat [wsP, altList [litCI "II", litCI "III", litCI "IV", litCI "V", litCI "VI",
    litCI "VII", litCI "VIII", litCI "IX", litCI "X"], .eos]

/-- `/\s+\d+$/i` -/
def reTrailNum : RE := cat [wsP, digP, .eos]

/-- The full pipeline on the character list: initial `trim`, the seven
replaces in source order, final `trim`. -/
def normalizePipeline (l : List Char) : List Char :=
  jsTrim (replaceFirst reTrailNum (replaceFirst reRoman (replaceFirst reFinalSeason
    (replaceFirst reSeasonN (replaceFirst reNthSeason (replaceFirst reParenSeason
      (replaceFirst reDashSeason (jsTrim l))))))))

/-- `normalizeBaseTitle(title)` (`String(title || "")` is the identity on
strings). -/
def normalizeBaseTitle (title : String) : String :=
  ⟨normalizePipeline title.data⟩

/-- A string transformer that either leaves its input unchanged or
strictly shortens it. -/
def Shrinks (f : List Char → List Char) : Prop :=
  ∀ l, f l = l ∨ (f l).length < l.length

/-! ## Season-chain resolver, part_000 (AniList; lines 147-228)

`fetchWithRelations` asks AniList for
`Media { id idMal format title{userPreferred} relations{ edges{ relationType
node{ id idMal format title{userPreferred} } } } }`; the graph of available
media is modelled as a function from AniList id to an optional record
(`none` = fetch failure or missing media). -/

/-- A relation edge's `node`. -/
structure AniNodeRef where
  id : Int
  idMal : Option Int
  format : Option String
  title : Option String
deriving Repr, DecidableEq

/-- A relation edge `{ relationType, node }`. -/
structure AniEdge where
  relationType : String
  node : AniNodeRef
deriving Repr, DecidableEq

/-- An AniList media record with its relation edges. -/
structure AniMedia where
  id : Int
  idMal : Option Int
  format : Option String
  title : Option String
  relations : Option (List AniEdge)
deriving Repr, DecidableEq

/-- `candidates` of `pickEdge`: nodes of the edges of the requested
relation type. -/
def pickCandidates (edges : Option (List AniEdge)) (ty : String) :
    List AniNodeRef :=
  ((edges.getD []).filter (fun e => e.relationType == ty)).map (·.node)

/-- `(n) => n?.format === "TV" || n?.format === "ONA"` -/
def isTvOrOna (node : AniNodeRef) : Bool :=
  node.format == some "TV" || node.format == some "ONA"

/-- `pickEdge(edges, type)` (lines 158-163):
`const tv = candidates.find(n => n?.format === "TV" || n?.format === "ONA");
return tv || candidates[0] || null;` -/
def pickEdge (edges : Option (List AniEdge)) (ty : String) : Option AniNodeRef :=
  match (pickCandidates edges ty).find? isTvOrOna with
  | some tv => some tv
  | none => (pickCandidates edges ty).head?

/-- The chain records `start` (an `AniMedia`) alongside edge nodes; this is
its projection to the fields the chain consumers read. -/
def mediaRef (m : AniMedia) : AniNodeRef := ⟨m.id, m.idMal, m.format, m.title⟩

/-- The backward walk of `getInfo` (lines 196-203): up to 3 PREQUEL steps;
an accepted candidate is pushed (and marked seen) *before* its own record
is fetched, so a failed fetch truncates after the push. -/
def p0Back (graph : Int → Option AniMedia) :
    Nat → AniMedia → List Int → List AniNodeRef → List Int × List AniNodeRef
  | 0, _, seen, back => (seen, back)
  | fuel + 1, node, seen, back =>
    match pickEdge node.relations "PREQUEL" with
    | none => (seen, back)
    | some prev =>
      if prev.id ∈ seen then (seen, back)
      else
        match graph prev.id with
        | none => (prev.id :: seen, back ++ [prev])
        | some node' => p0Back graph fuel node' (prev.id :: seen) (back ++ [prev])

/-- The forward walk of `getInfo` (lines 206-214): up to 3 SEQUEL steps,
appending accepted candidates to the chain (again pushed before the
follow-up fetch). -/
def p0Fwd (graph : Int → Option AniMedia) :
    Nat → AniMedia → List Int → List AniNodeRef → List Int × List AniNodeRef
  | 0, _, seen, chain => (seen, chain)
  | fuel + 1, node, seen, chain =>
    match pickEdge node.relations "SEQUEL" with
    | none => (seen, chain)
    | some next =>
      if next.id ∈ seen then (seen, chain)
      else
        match graph next.id with
        | none => (next.id :: seen, chain ++ [next])
        | some node' => p0Fwd graph fuel node' (next.id :: seen) (chain ++ [next])

/-- The season chain built by part_000 `getInfo` (lines 193-214):
`seen = {start.id}`, backward walk, `chain = [...back.reverse(), start]`,
then the forward walk pushes onto `chain`. -/
def p0Chain (graph : Int → Option AniMedia) (start : AniMedia) :
    List AniNodeRef :=
  let sb := p0Back graph 3 start [start.id] []
  let chain := sb.2.reverse ++ [mediaRef start]
  (p0Fwd graph 3 start sb.1 chain).2

/-! ## Season-chain resolver, anime.ts (Jikan; lines 91-176)

`fetchByMal` returns the Jikan full record; relation entries carry
`{ mal_id, type, name }`. -/

/-- A relation entry (`rel.entry[i]`). -/
structure JkEntry where
  mal_id : Int
  type' : Option String
  name : String
deriving Repr, DecidableEq

/-- One relation group `{ relation, entry[] }`. -/
structure JkRelation where
  relation : String
  entry : List JkEntry
deriving Repr, DecidableEq

/-- A Jikan full record: the fields `buildSeasonsChain` reads. -/
structure JkAnime where
  mal_id : Int
  title : Option String
  title_english : Option String
  title_japanese : Option String
  relations : Option (List JkRelation)
deriving Repr, DecidableEq

/-- JS `a || b` on optional strings (the empty string is falsy). -/
def jsOr (a b : Option String) : Option String :=
  match a with
  | some s => if s = "" then b else some s
  | none => b

/-- `x.title || x.title_english || x.title_japanese` -/
def jkTitle (x : JkAnime) : Option String :=
  jsOr x.title (jsOr x.title_english x.title_japanese)

/-- `pickRelation(rel)` (lines 103-108): `const tv = rel.entry.find(x =>
x.type === "TV"); const chosen = tv || rel.entry[0]; return chosen ?
{ id: chosen.mal_id, title: chosen.name } : null;` -/
def pickRelation (rel : Option JkRelation) : Option (Int × String) :=
  match rel with
  | none => none
  | some r =>
    match r.entry.find? (fun x => x.type' == some "TV") with
    | some tv => some (tv.mal_id, tv.name)
    | none =>
      match r.entry.head? with
      | some c => some (c.mal_id, c.name)
      | none => none

/-- `node.relations?.find?.((r) => r.relation === "Prequel")` (resp.
`"Sequel"`). -/
def jkFindRelation (node : JkAnime) (name : String) : Option JkRelation :=
  (node.relations.getD []).find? (fun r => r.relation == name)

/-- The backward walk of `buildSeasonsChain` (lines 122-136): up to 8
Prequel steps; an accepted id is pushed to `back` and `seen`, then its
full record is fetched (failure truncates; the title is only recorded on
success). -/
def anBack (graph : Int → Option JkAnime) :
    Nat → JkAnime → List Int → List Int → List (Int × Option String) →
      List Int × List Int × List (Int × Option String)
  | 0, _, seen, back, titles => (seen, back, titles)
  | fuel + 1, node, seen, back, titles =>
    match pickRelation (jkFindRelation node "Prequel") with
    | none => (seen, back, titles)
    | some pre =>
      if pre.1 ∈ seen then (seen, back, titles)
      else
        match graph pre.1 with
        | none => (pre.1 :: seen, back ++ [pre.1], titles)
        | some full =>
          anBack graph fuel full (pre.1 :: seen) (back ++ [pre.1])
            ((pre.1, jkTitle full) :: titles)

/-- The forward walk of `buildSeasonsChain` (lines 142-156): up to 8
Sequel steps; an accepted id is added to `seen`, then fetched, and only on
a successful fetch pushed onto the chain. -/
def anFwd (graph : Int → Option JkAnime) :
    Nat → JkAnime → List Int → List Int → List (Int × Option String) →
      List Int × List Int × List (Int × Option String)
  | 0, _, seen, chain, titles => (seen, chain, titles)
  | fuel + 1, node, seen, chain, titles =>
    match pickRelation (jkFindRelation node "Sequel") with
    | none => (seen, chain, titles)
    | some sq =>
      if sq.1 ∈ seen then (seen, chain, titles)
      else
        match graph sq.1 with
        | none => (sq.1 :: seen, chain, titles)
        | some full =>
          anFwd graph fuel full (sq.1 :: seen) (chain ++ [sq.1])
            ((sq.1, jkTitle full) :: titles)

/-- `buildSeasonsChain(startData)` (lines 110-159): **`seen` starts
empty** (the start id is never added), `titles[currentId]` is set, the
backward walk runs, `chain = [...back.reverse(), currentId]`, the forward
walk extends it.  Returns `{ ids: chain, titles }`. -/
def buildSeasonsChain (graph : Int → Option JkAnime) (startData : JkAnime) :
    List Int × List (Int × Option String) :=
  let currentId := startData.mal_id
  let titles0 : List (Int × Option String) := [(currentId, jkTitle startData)]
  let rb := anBack graph 8 startData [] [] titles0
  let chain := rb.2.1.reverse ++ [currentId]
  let rf := anFwd graph 8 startData rb.1 chain rb.2.2
  (rf.2.1, rf.2.2)

/-! ### Concrete fixtures used by scenario and counterexample theorems -/

/-- An ONA-format sequel candidate. -/
def onaNode : AniNodeRef := ⟨5, none, some "ONA", some "B"⟩

/-- A TV-format sequel candidate listed after the ONA one. -/
def tvNode : AniNodeRef := ⟨6, none, some "TV", some "C"⟩

/-- Two SEQUEL edges whose candidate list is `[onaNode, tvNode]`. -/
def demoEdges : Option (List AniEdge) :=
  some [⟨"SEQUEL", onaNode⟩, ⟨"SEQUEL", tvNode⟩]

/-- A one-node cyclic Jikan graph: media 1 lists itself as its Prequel. -/
def jkLoopNode : JkAnime :=
  ⟨1, some "A", none, none, some [⟨"Prequel", [⟨1, some "TV", "A"⟩]⟩]⟩

/-- Lookup function for the one-node cyclic graph. -/
def jkLoopGraph : Int → Option JkAnime :=
  fun i => if i = 1 then some jkLoopNode else none

/-- Provider list `A = [{num:1,id:"a1"}, {num:2,id:"a2"}]` under the
highest-preference provider id. -/
def provA : ProviderList :=
  ⟨some "gogoanime", [⟨some 1, some "a1", none⟩, ⟨some 2, some "a2", none⟩]⟩

/-- Provider list `B = [{num:2,id:"b2"}, {num:3,id:"b3"}]` under the
second-preference provider id. -/
def provB : ProviderList :=
  ⟨some "zoro", [⟨some 2, some "b2", none⟩, ⟨some 3, some "b3", none⟩]⟩

/-- A provider whose id is not in `preferred` (`indexOf` yields `-1`),
supplying episode 1 as `"u1"`. -/
def provU : ProviderList := ⟨some "animekai", [⟨some 1, some "u1", none⟩]⟩

/-- The top-preference provider (`indexOf` 0), supplying episode 1 as
`"g1"`. -/
def provG : ProviderList := ⟨some "gogoanime", [⟨some 1, some "g1", none⟩]⟩

end Koanime

/-! ## Theorems -/

namespace Koanime

/-- Claim C9: TTL cache: a `get` after `set` of the same key returns the
stored value exactly while the entry's age is within the TTL window, and
absent once the TTL has elapsed, with no explicit invalidation — for both
the part_000 cache (expiry strictly after `TTL_MS`) and the anime.ts
episodes cache (expiry at `EPISODES_TTL_MS`). -/
theorem c9_ttl_cache (cache : Cache α) (key : String) (t₀ t₁ : Int) (d : α) :
    (getCached (setCached cache key t₀ d) key t₁ =
      if t₁ - t₀ > TTL_MS then none else some d)
    ∧ (episodesCacheHit (setCached cache key t₀ d) key t₁ =
      if t₁ - t₀ < EPISODES_TTL_MS then some d else none) := by
  constructor
  · simp [getCached, setCached]
  · simp [episodesCacheHit, setCached]

/-- Claim C10 counterexample to the claim as stated: The claim
says the effective page number is always an *integer* at least 1; a query
parameter whose `Number` coercion is `1.5` flows through
`Math.max(1, 1.5 || 1) = 1.5`, which has denominator 2, i.e. is not an
integer. -/
theorem c10_counterexample :
    effPage (PageParam.numeric (3 / 2)) = 3 / 2 ∧
      (effPage (PageParam.numeric (3 / 2))).den ≠ 1 := by
  constructor
  · norm_num [effPage, coerceNumber]
  · norm_num [effPage, coerceNumber]

/-- Claim C10 as amended: The effective page number
`Math.max(1, Number(req.query.page || 1) || 1)` is at least 1 for every
shape of the incoming `page` query parameter (missing, empty, non-numeric,
zero, negative, any numeric value); it is an integer except when the
parameter is a fractional numeral, which is passed through unchanged. -/
theorem c10_amended (p : PageParam) : 1 ≤ effPage p := by
  cases p <;> exact le_max_left _ _

/-- Claim C5 counterexample to the claim as stated: The
retrying `fetchJson(url, timeoutMs, maxRetries)` of anime.ts has a
`try/finally` with no `catch`: a network error (or timeout abort) on the
first attempt escapes its boundary as an exception. -/
theorem c5_counterexample :
    fetchJsonA (fun _ => (FetchOutcome.netErr : FetchOutcome Unit)) 0 1 =
      Except.error () := rfl

theorem fetchJsonDone_isOk (status : Nat) (body : Option α)
    (h : goodOutcome (FetchOutcome.resp status body)) :
    (fetchJsonDone status body).isOk = true := by
  unfold fetchJsonDone
  by_cases hok : respOk status = true
  · rw [if_pos hok]
    rcases body with _ | j
    · exact absurd (h hok) (by simp)
    · rfl
  · rw [if_neg hok]
    rfl

/-- Claim C5 as amended: `fetchJsonA` raises only when some attempt's request
rejects (network error/timeout) or a 2xx body fails to parse: whenever
every attempt outcome is an HTTP response whose body parses if the status
is 2xx, the call returns a result (`{ok, status, json}`) rather than
throwing.  (The part_000 `fetchJson` is `fetchJsonP`, whose `Option`
return type reflects that its `catch` converts every failure to `null`.) -/
theorem c5_amended {α : Type} (env : Nat → FetchOutcome α) (attempt retries : Nat)
    (h : ∀ n, goodOutcome (env n)) :
    (fetchJsonA env attempt retries).isOk = true := by
  induction retries generalizing attempt with
  | zero =>
    rw [fetchJsonA]
    rcases henv : env attempt with _ | ⟨status, body⟩
    · exact absurd (h attempt) (by rw [henv]; exact fun hf => hf)
    · exact fetchJsonDone_isOk status body (henv ▸ h attempt)
  | succ r ih =>
    rw [fetchJsonA]
    rcases henv : env attempt with _ | ⟨status, body⟩
    · exact absurd (h attempt) (by rw [henv]; exact fun hf => hf)
    · dsimp only
      by_cases h429 : (status == 429) = true
      · rw [if_pos h429]
        exact ih (attempt + 1)
      · rw [if_neg h429]
        exact fetchJsonDone_isOk status body (henv ▸ h attempt)

/-- Witness for `c5_amended` at a concrete non-2xx outcome. -/
theorem c5_amended_witness :
    (fetchJsonA (fun _ => (FetchOutcome.resp 404 none : FetchOutcome Unit)) 0 1).isOk
      = true :=
  c5_amended _ 0 1 (fun _ => fun hok => absurd hok (by decide))

/-- Claim C6 counterexample to the claim as stated: A transport
failure of the AniList round trip inside `getTrending` is caught by the
handler's `try/catch` and surfaced to the caller as an HTTP 500 error
response — not converted into an empty, well-formed result. -/
theorem c6_counterexample :
    getTrendingRun (fun l => l) (GqlOutcome.netErr : GqlOutcome (List Unit)) =
      (500, ApiResp.err "fetch failed") := rfl

/-- Claim C6 as amended: Operations whose upstream lookups go through the
catching `fetchJson` (`fetchJsonP`) convert upstream transport failures
into an empty, well-formed 200 result — e.g. `getEpisodes`, whose response
on any failed Anify fetch is `{ episodes: [], pagination: null }`.  The
`gql`-based operations (e.g. `getTrending`) instead surface a transport
failure as a 500 error response produced by their `catch` block; no
exception escapes the handler in either case. -/
theorem c6_amended (μ σ : Type) (f : List μ → List σ) :
    (∀ (aniId : Int) (page : Nat) (o : FetchOutcome (List ProviderList)),
        fetchJsonP o = none →
        getEpisodesRun (some aniId) none o page = (200, .payload ⟨[], none⟩))
    ∧ (∀ o : GqlOutcome (List μ), gqlTransportFailure o →
        ∃ msg, getTrendingRun f o = (500, ApiResp.err msg)) := by
  constructor
  · intro aniId page o h
    simp [getEpisodesRun, h]
  · intro o ho
    rcases o with _ | status | _ | data
    · exact ⟨"fetch failed", rfl⟩
    · exact ⟨s!"AniList error: {status}", rfl⟩
    · exact absurd ho (fun hf => hf)
    · exact absurd ho (fun hf => hf)

/-- Witness for `c6_amended`: a network error during the Anify episodes
fetch yields the empty 200 payload. -/
theorem c6_amended_witness :
    getEpisodesRun (some 1) none
        (FetchOutcome.netErr : FetchOutcome (List ProviderList)) 1 =
      (200, .payload ⟨[], none⟩) :=
  (c6_amended Unit Unit (fun l => l)).1 1 1 FetchOutcome.netErr rfl

/-! ### Stable sort lemmas -/

theorem mem_insertByKey {κ : Type} [LinearOrder κ] (key : α → κ) (x a : α) :
    ∀ l : List α, a ∈ insertByKey key x l ↔ a = x ∨ a ∈ l := by
  intro l
  induction l with
  | nil => simp [insertByKey]
  | cons y ys ih =>
    by_cases h : key x ≤ key y
    · simp [insertByKey, h]
    · simp only [insertByKey, if_neg h, List.mem_cons, ih]
      tauto

theorem insertByKey_perm {κ : Type} [LinearOrder κ] (key : α → κ) (x : α) :
    ∀ l : List α, List.Perm (insertByKey key x l) (x :: l) := by
  intro l
  induction l with
  | nil => simp [insertByKey]
  | cons y ys ih =>
    by_cases h : key x ≤ key y
    · simp [insertByKey, h]
    · simpa [insertByKey, h] using ((ih.cons y).trans (List.Perm.swap x y ys))

theorem sortByKey_perm {κ : Type} [LinearOrder κ] (key : α → κ) :
    ∀ l : List α, List.Perm (sortByKey key l) l := by
  intro l
  induction l with
  | nil => simp [sortByKey]
  | cons x xs ih =>
    exact (insertByKey_perm key x (sortByKey key xs)).trans (ih.cons x)

theorem pairwise_insertByKey {κ : Type} [LinearOrder κ] (key : α → κ) (x : α) (l : List α)
    (h : l.Pairwise (fun a b => key a ≤ key b)) :
    (insertByKey key x l).Pairwise (fun a b => key a ≤ key b) := by
  induction l with
  | nil => simp [insertByKey]
  | cons y ys ih =>
    rcases List.pairwise_cons.1 h with ⟨hy, hys⟩
    by_cases hxy : key x ≤ key y
    · rw [insertByKey, if_pos hxy]
      refine List.pairwise_cons.2 ⟨?_, h⟩
      intro z hz
      rcases List.mem_cons.1 hz with rfl | hz
      · exact hxy
      · exact le_trans hxy (hy z hz)
    · rw [insertByKey, if_neg hxy]
      refine List.pairwise_cons.2 ⟨?_, ih hys⟩
      intro z hz
      rcases (mem_insertByKey key x z ys).1 hz with rfl | hz
      · exact le_of_lt (lt_of_not_le hxy)
      · exact hy z hz

theorem pairwise_sortByKey {κ : Type} [LinearOrder κ] (key : α → κ) :
    ∀ l : List α, (sortByKey key l).Pairwise (fun a b => key a ≤ key b) := by
  intro l
  induction l with
  | nil => simp [sortByKey]
  | cons x xs ih => exact pairwise_insertByKey key x _ ih

/-! ### Reconciliation map invariants -/

theorem foldl_invariant {β α : Type} {P : β → Prop} (f : β → α → β)
    (step : ∀ b a, P b → P (f b a)) :
    ∀ (l : List α) (b : β), P b → P (l.foldl f b) := by
  intro l
  induction l with
  | nil => intro b hb; simpa using hb
  | cons a l ih => intro b hb; exact ih (f b a) (step b a hb)

theorem mapHas_iff_mem (m : EpMap) (n : ℚ) :
    mapHas m n = true ↔ n ∈ m.map (·.1) := by
  simp [mapHas, List.any_eq_true]

theorem processEp_inv (aniId : Int) (m : EpMap) (ep : RawEp) (h : MapInv m) :
    MapInv (processEp aniId m ep) := by
  unfold processEp
  by_cases hskip : ((epNumber ep == 0) || mapHas m (epNumber ep)) = true
  · simpa [hskip] using h
  · rw [if_neg hskip]
    have hb : ¬ mapHas m (epNumber ep) = true := fun h' =>
      hskip (by simp [h'])
    have hmem : epNumber ep ∉ m.map (·.1) := fun hm =>
      hb ((mapHas_iff_mem m _).2 hm)
    constructor
    · rw [mapSet, List.map_append]
      refine h.1.append (List.nodup_singleton _) ?_
      intro a ha hb'
      simp only [List.map_cons, List.map_nil, List.mem_singleton] at hb'
      subst hb'
      exact hmem ha
    · intro p hp
      rw [mapSet, List.mem_append] at hp
      rcases hp with hp | hp
      · exact h.2 p hp
      · simp only [List.mem_singleton] at hp
        subst hp
        rfl

theorem buildMap_inv (aniId : Int) (provs : List ProviderList) :
    MapInv (buildMap aniId provs) := by
  unfold buildMap
  refine foldl_invariant _ ?_ provs [] ⟨List.nodup_nil, by simp⟩
  intro m prov hm
  exact foldl_invariant _ (fun m' ep hm' => processEp_inv aniId m' ep hm') _ m hm

/-- Claim C1: For every collection of provider episode lists, the reconciled
episode list is sorted strictly ascending by episode number; in particular
no two records share a number, whatever the provider order, the episode
order within each provider, and duplication across providers. -/
theorem c1_reconciler_sorted_strict (aniId : Int) (provs : List ProviderList) :
    (reconcileList aniId provs).Pairwise (fun a b => a.number < b.number) := by
  unfold reconcileList
  set vals : List Episode := (buildMap aniId (sortByKey providerKey provs)).map (·.2)
    with hvals
  have hinv := buildMap_inv aniId (sortByKey providerKey provs)
  have hnums : vals.map (·.number)
      = (buildMap aniId (sortByKey providerKey provs)).map (·.1) := by
    rw [hvals, List.map_map]
    exact List.map_congr_left fun p hp => hinv.2 p hp
  have hnd : (vals.map (·.number)).Nodup := by
    rw [hnums]; exact hinv.1
  have hperm : List.Perm ((sortByKey (·.number) vals).map (·.number))
      (vals.map (·.number)) :=
    (sortByKey_perm (·.number) vals).map _
  have hnd' : ((sortByKey (·.number) vals).map (·.number)).Nodup :=
    (hperm.nodup_iff).2 hnd
  have hne : (sortByKey (·.number) vals).Pairwise
      (fun a b => a.number ≠ b.number) :=
    (List.pairwise_map).1 hnd'
  have hle := pairwise_sortByKey (·.number) vals
  exact (hle.and hne).imp fun h => lt_of_le_of_ne h.1 h.2

/-! ### First-seen-wins characterization of the reconciliation map -/

theorem buildMap_flatMap (aniId : Int) :
    ∀ (provs : List ProviderList) (m : EpMap),
      provs.foldl (fun m' prov => prov.episodes.foldl (processEp aniId) m') m =
        (provs.flatMap (·.episodes)).foldl (processEp aniId) m := by
  intro provs
  induction provs with
  | nil => intro m; rfl
  | cons p ps ih =>
    intro m
    rw [List.foldl_cons, List.flatMap_cons, List.foldl_append]
    exact ih _

theorem find?_cons_eq (p : α → Bool) (a : α) (l : List α) :
    (a :: l).find? p = if p a then some a else l.find? p := by
  rcases h : p a with _ | _ <;> simp [List.find?, h]

theorem mapLookup_mapSet (m : EpMap) (n k : ℚ) (e : Episode) :
    mapLookup (mapSet m k e) n =
      (mapLookup m n).or (if k == n then some e else none) := by
  rw [mapSet, mapLookup, List.find?_append]
  rcases hfind : m.find? (·.1 == n) with _ | p
  · rcases hk : (k == n) with _ | _ <;>
      simp [mapLookup, List.find?, hk, hfind, Option.or]
  · simp [mapLookup, hfind, Option.or]

theorem mapHas_eq_isSome (m : EpMap) (n : ℚ) :
    mapHas m n = (mapLookup m n).isSome := by
  rw [mapHas, mapLookup]
  induction m with
  | nil => rfl
  | cons p ps ih =>
    rcases hp : (p.1 == n) with _ | _ <;> simp [List.find?, hp, ih]

theorem lookup_foldl_processEp (aniId : Int) (n : ℚ) (hn : n ≠ 0) :
    ∀ (eps : List RawEp) (m : EpMap),
      mapLookup (eps.foldl (processEp aniId) m) n =
        (mapLookup m n).or
          ((eps.find? (fun ep => epNumber ep == n)).map (mkRecord aniId)) := by
  intro eps
  induction eps with
  | nil => intro m; simp
  | cons ep eps ih =>
    intro m
    rw [List.foldl_cons, ih, find?_cons_eq]
    by_cases hnum : (epNumber ep == n) = true
    · have hepn : epNumber ep = n := eq_of_beq hnum
      subst hepn
      rw [if_pos hnum]
      have hne0 : (epNumber ep == 0) = false := by
        rcases hb : (epNumber ep == 0) with _ | _
        · rfl
        · exact absurd (eq_of_beq hb) hn
      rcases hlk : mapLookup m (epNumber ep) with _ | v
      · have hhas : mapHas m (epNumber ep) = false := by
          rw [mapHas_eq_isSome, hlk]; rfl
        rw [processEp]
        simp only [hne0, hhas, Bool.or_self, if_neg, Bool.false_eq_true,
          not_false_eq_true]
        rw [mapLookup_mapSet, hlk, if_pos hnum]
        rfl
      · have hhas : mapHas m (epNumber ep) = true := by
          rw [mapHas_eq_isSome, hlk]; rfl
        rw [processEp]
        simp only [hne0, hhas, Bool.or_true, if_pos]
        rw [hlk]
        rfl
    · rw [if_neg hnum, processEp]
      by_cases hskip : ((epNumber ep == 0) || mapHas m (epNumber ep)) = true
      · rw [if_pos hskip]
      · rw [if_neg hskip, mapLookup_mapSet, if_neg hnum, Option.or_none]

/-- Claim C4 as amended: Provider lists are iterated in ascending order of
`preferred.indexOf(providerId)` — which ranks providers *not present* in
the preference list (index `-1`) **before** all known ones, stable
otherwise — and for each valid episode number the record kept is the one
from the earliest-processed provider supplying that number (first-seen
wins, later duplicates never overwrite earlier data).  The spec scenario
(`A=[1:a1, 2:a2]`, `B=[2:b2, 3:b3]`, preference `[A,B]`) yields
`[1:a1, 2:a2, 3:b3]`. -/
theorem c4_amended_first_seen :
    (∀ (aniId : Int) (provs : List ProviderList) (n : ℚ), n ≠ 0 →
      mapLookup (buildMap aniId (sortByKey providerKey provs)) n =
        (((sortByKey providerKey provs).flatMap (·.episodes)).find?
          (fun ep => epNumber ep == n)).map (mkRecord aniId))
    ∧ reconcileList 77 [provA, provB] =
        [⟨"a1", 1, none⟩, ⟨"a2", 2, none⟩, ⟨"b3", 3, none⟩] := by
  constructor
  · intro aniId provs n hn
    rw [buildMap, buildMap_flatMap, lookup_foldl_processEp aniId n hn]
    simp [mapLookup, Option.or]
  · decide

/-- Witness for `c4_amended_first_seen`: in the spec scenario the record
kept for duplicate number 2 is provider A's `"a2"`. -/
theorem c4_amended_first_seen_witness :
    mapLookup (buildMap 77 (sortByKey providerKey [provA, provB])) 2 =
      some ⟨"a2", 2, none⟩ := by
  rw [c4_amended_first_seen.1 77 [provA, provB] 2 (by decide)]
  decide

/-- Claim C4 counterexample to the claim as stated: The claim
says providers absent from the preference order rank *after* all known
providers; `indexOf` returns `-1` for them, so the comparator ranks them
*before* every known provider: an unknown provider's episode 1 record
(`"u1"`) beats the top-preference provider's (`"g1"`). -/
theorem c4_counterexample :
    reconcileList 9 [provG, provU] = [⟨"u1", 1, none⟩] ∧
      mapLookup (buildMap 9 (sortByKey providerKey [provG, provU])) 1 ≠
        some ⟨"g1", 1, none⟩ := by
  decide

/-! ### Pagination -/

/-- Claim C7 as amended: For every reconciled result and requested page,
`has_next_page` is exactly `total > page * 24`, and `last_visible_page` is
`max(1, ⌈total / 24⌉)` — characterized order-theoretically: it is at least
1, covers all `total` episodes, and (unless it is the clamped 1) its
predecessor does not cover them.  At `total = 0` the code yields 1, not
`⌈0 / 24⌉ = 0`.  Both pagination builders (part_000 `getEpisodes` and the
anime.ts Consumet fallback) satisfy the same equations. -/
theorem c7_amended (aniId : Int) (provs : List ProviderList) (page : Nat) :
    ((buildPagination (reconcileList aniId provs).length page).has_next_page = true
        ↔ page * perPage < (reconcileList aniId provs).length)
    ∧ 1 ≤ (buildPagination (reconcileList aniId provs).length page).last_visible_page
    ∧ (reconcileList aniId provs).length ≤
        perPage * (buildPagination (reconcileList aniId provs).length page).last_visible_page
    ∧ ((buildPagination (reconcileList aniId provs).length page).last_visible_page = 1
        ∨ perPage * ((buildPagination (reconcileList aniId provs).length page).last_visible_page - 1)
            < (reconcileList aniId provs).length)
    ∧ (buildPaginationC (reconcileList aniId provs).length page).has_next_page
        = (buildPagination (reconcileList aniId provs).length page).has_next_page
    ∧ (buildPaginationC (reconcileList aniId provs).length page).last_visible_page
        = (buildPagination (reconcileList aniId provs).length page).last_visible_page := by
  set t := (reconcileList aniId provs).length with ht
  refine ⟨by simp [buildPagination], ?_, ?_, ?_, rfl, rfl⟩
  · exact le_max_left _ _
  · rw [buildPagination]
    dsimp only
    rw [Nat.max_def, perPage]
    split <;> omega
  · rw [buildPagination]
    dsimp only
    rw [Nat.max_def, perPage]
    split <;> omega

/-! ### The normalizer never lengthens its input -/

theorem starOutcomes_suffix (p : Char → Bool) :
    ∀ (l : List Char) (prev : Option Char) (pr : Option Char × List Char),
      pr ∈ starOutcomes p prev l → pr.2 <:+ l := by
  intro l
  induction l with
  | nil =>
    intro prev pr hpr
    rw [starOutcomes] at hpr
    rcases List.mem_singleton.1 hpr with rfl
    exact List.suffix_refl _
  | cons c rest ih =>
    intro prev pr hpr
    rw [starOutcomes] at hpr
    by_cases hc : p c = true
    · rw [if_pos hc] at hpr
      rcases List.mem_append.1 hpr with h | h
      · exact (ih (some c) pr h).trans (List.suffix_cons c rest)
      · rcases List.mem_singleton.1 h with rfl
        exact List.suffix_refl _
    · rw [if_neg hc] at hpr
      rcases List.mem_singleton.1 hpr with rfl
      exact List.suffix_refl _

theorem litMatch_suffix :
    ∀ (s : List Char) (prev : Option Char) (l : List Char)
      (pr : Option Char × List Char),
      litMatch s prev l = some pr → pr.2 <:+ l := by
  intro s
  induction s with
  | nil =>
    intro prev l pr h
    rw [litMatch] at h
    cases h
    exact List.suffix_refl _
  | cons c cs ih =>
    intro prev l pr h
    cases l with
    | nil => rw [litMatch] at h; cases h
    | cons d l' =>
      rw [litMatch] at h
      by_cases hd : (d.toLower == c.toLower) = true
      · rw [if_pos hd] at h
        exact (ih (some d) l' pr h).trans (List.suffix_cons d l')
      · rw [if_neg hd] at h; cases h

theorem reMatch_suffix :
    ∀ (re : RE) (prev : Option Char) (l : List Char)
      (pr : Option Char × List Char),
      pr ∈ reMatch re prev l → pr.2 <:+ l := by
  intro re
  induction re with
  | cls p =>
    intro prev l pr h
    cases l with
    | nil => cases h
    | cons c rest =>
      rw [reMatch] at h
      by_cases hc : p c = true
      · rw [if_pos hc] at h
        rcases List.mem_singleton.1 h with rfl
        exact List.suffix_cons c rest
      · rw [if_neg hc] at h; cases h
  | star p =>
    intro prev l pr h
    rw [reMatch] at h
    exact starOutcomes_suffix p l prev pr h
  | plus p =>
    intro prev l pr h
    cases l with
    | nil => cases h
    | cons c rest =>
      rw [reMatch] at h
      by_cases hc : p c = true
      · rw [if_pos hc] at h
        exact (starOutcomes_suffix p rest (some c) pr h).trans
          (List.suffix_cons c rest)
      · rw [if_neg hc] at h; cases h
  | lit s =>
    intro prev l pr h
    rw [reMatch] at h
    rcases hm : litMatch s prev l with _ | pr0
    · rw [hm] at h; cases h
    · rw [hm] at h
      rcases List.mem_singleton.1 h with rfl
      exact litMatch_suffix s prev l _ hm
  | alt r1 r2 ih1 ih2 =>
    intro prev l pr h
    rw [reMatch] at h
    rcases List.mem_append.1 h with h | h
    · exact ih1 prev l pr h
    · exact ih2 prev l pr h
  | seq r1 r2 ih1 ih2 =>
    intro prev l pr h
    rw [reMatch] at h
    rcases List.mem_flatMap.1 h with ⟨pr1, h1, h2⟩
    exact (ih2 pr1.1 pr1.2 pr h2).trans (ih1 prev l pr1 h1)
  | opt r ih =>
    intro prev l pr h
    rw [reMatch] at h
    rcases List.mem_append.1 h with h | h
    · exact ih prev l pr h
    · rcases List.mem_singleton.1 h with rfl
      exact List.suffix_refl _
  | wb =>
    intro prev l pr h
    rw [reMatch] at h
    by_cases hb : isWordBoundary prev l = true
    · rw [if_pos hb] at h
      rcases List.mem_singleton.1 h with rfl
      exact List.suffix_refl _
    · rw [if_neg hb] at h; cases h
  | eos =>
    intro prev l pr h
    rw [reMatch] at h
    by_cases hb : l.isEmpty = true
    · rw [if_pos hb] at h
      rcases List.mem_singleton.1 h with rfl
      exact List.suffix_refl _
    · rw [if_neg hb] at h; cases h

theorem firstMatchAux_decomp (re : RE) :
    ∀ (l acc : List Char) (prev : Option Char) (pre rest : List Char),
      firstMatchAux re prev l acc = some (pre, rest) →
      ∃ mid, acc.reverse ++ l = pre ++ (mid ++ rest) := by
  intro l
  induction l with
  | nil =>
    intro acc prev pre rest h
    rcases hxs : reMatch re prev [] with _ | ⟨pr0, tl⟩
    · rw [firstMatchAux, hxs] at h
      cases h
    · rw [firstMatchAux, hxs] at h
      simp only [List.head?] at h
      cases h
      have hpr : pr0 ∈ reMatch re prev [] := by
        rw [hxs]; exact List.mem_cons_self _ _
      rcases reMatch_suffix re prev [] pr0 hpr with ⟨mid, hmid⟩
      exact ⟨mid, by rw [← hmid]⟩
  | cons c ls ih =>
    intro acc prev pre rest h
    rcases hxs : reMatch re prev (c :: ls) with _ | ⟨pr0, tl⟩
    · rw [firstMatchAux, hxs] at h
      simp only [List.head?] at h
      rcases ih (c :: acc) (some c) pre rest h with ⟨mid, hmid⟩
      rw [List.reverse_cons] at hmid
      refine ⟨mid, ?_⟩
      rw [List.append_cons, hmid]
    · rw [firstMatchAux, hxs] at h
      simp only [List.head?] at h
      cases h
      have hpr : pr0 ∈ reMatch re prev (c :: ls) := by
        rw [hxs]; exact List.mem_cons_self _ _
      rcases reMatch_suffix re prev (c :: ls) pr0 hpr with ⟨mid, hmid⟩
      exact ⟨mid, by rw [← hmid]⟩

theorem replaceFirst_shrink (re : RE) : Shrinks (replaceFirst re) := by
  intro l
  rw [replaceFirst]
  rcases h : firstMatchAux re none l [] with _ | ⟨pre, rest⟩
  · exact Or.inl rfl
  · obtain ⟨mid, hmid⟩ := firstMatchAux_decomp re l [] none pre rest h
    simp only [List.reverse_nil, List.nil_append] at hmid
    rcases mid with _ | ⟨c, mid⟩
    · left
      rw [hmid, List.nil_append]
    · right
      rw [hmid]
      simp only [List.length_append, List.length_cons]
      omega

theorem dropWhile_shrink (p : Char → Bool) :
    Shrinks (fun l => l.dropWhile p) := by
  intro l
  show l.dropWhile p = l ∨ (l.dropWhile p).length < l.length
  induction l with
  | nil => left; rfl
  | cons c ls ih =>
    by_cases hc : p c = true
    · right
      rw [List.dropWhile_cons_of_pos hc]
      rcases ih with h | h
      · rw [h]; exact Nat.lt_succ_self _
      · exact Nat.lt_succ_of_lt h
    · left
      rw [List.dropWhile_cons_of_neg hc]

theorem shrink_comp (f g : List Char → List Char) (hf : Shrinks f)
    (hg : Shrinks g) : Shrinks (fun l => g (f l)) := by
  intro l
  show g (f l) = l ∨ (g (f l)).length < l.length
  rcases hf l with h | h
  · rw [h]
    exact hg l
  · rcases hg (f l) with h' | h'
    · rw [h']
      exact Or.inr h
    · exact Or.inr (h'.trans h)

theorem revDrop_shrink (p : Char → Bool) :
    Shrinks (fun l => (l.reverse.dropWhile p).reverse) := by
  intro l
  show (l.reverse.dropWhile p).reverse = l ∨
    ((l.reverse.dropWhile p).reverse).length < l.length
  rcases dropWhile_shrink p l.reverse with h | h
  · left
    simp only at h
    rw [h, List.reverse_reverse]
  · right
    rw [List.length_reverse] at h ⊢
    exact h

theorem jsTrim_shrink : Shrinks jsTrim := by
  have h := shrink_comp (fun l => l.dropWhile jsWhitespace)
    (fun l => (l.reverse.dropWhile jsWhitespace).reverse)
    (dropWhile_shrink jsWhitespace) (revDrop_shrink jsWhitespace)
  intro l
  exact h l

theorem normalizePipeline_shrink : Shrinks normalizePipeline := by
  have h1 := shrink_comp _ _ jsTrim_shrink (replaceFirst_shrink reDashSeason)
  have h2 := shrink_comp _ _ h1 (replaceFirst_shrink reParenSeason)
  have h3 := shrink_comp _ _ h2 (replaceFirst_shrink reNthSeason)
  have h4 := shrink_comp _ _ h3 (replaceFirst_shrink reSeasonN)
  have h5 := shrink_comp _ _ h4 (replaceFirst_shrink reFinalSeason)
  have h6 := shrink_comp _ _ h5 (replaceFirst_shrink reRoman)
  have h7 := shrink_comp _ _ h6 (replaceFirst_shrink reTrailNum)
  have h8 := shrink_comp _ _ h7 jsTrim_shrink
  exact h8

/-- Claim C3 counterexample to the claim as stated: The title
normalizer is *not* idempotent: each replace strips at most the one
trailing numeric token it is anchored to, so `normalize("A 1 2") = "A 1"`
while `normalize("A 1") = "A"`. -/
theorem c3_counterexample :
    normalizeBaseTitle (normalizeBaseTitle "A 1 2") ≠
      normalizeBaseTitle "A 1 2" := by
  decide

/-- Claim C3 as amended: `normalizeBaseTitle` is a total, deterministic
function on all strings (in this embedding it is a function, hence both);
it is not idempotent in general, but every application either returns the
string unchanged or strictly shortens it (so repeated application reaches
a fixed point). -/
theorem c3_amended (s : String) :
    normalizeBaseTitle s = s ∨ (normalizeBaseTitle s).length < s.length := by
  have hmk : ∀ t : String, String.mk t.data = t := fun t => by cases t; rfl
  rcases normalizePipeline_shrink s.data with h | h
  · left
    rw [normalizeBaseTitle, h, hmk]
  · right
    rw [normalizeBaseTitle]
    exact h

/-! ### Relation candidate selection -/

theorem find?_first_segment (p : α → Bool) (l₁ l₂ : List α) (a : α)
    (ha : p a = true) (h₁ : ∀ m ∈ l₁, p m = false) :
    (l₁ ++ a :: l₂).find? p = some a := by
  induction l₁ with
  | nil => rw [List.nil_append, find?_cons_eq, if_pos ha]
  | cons x xs ih =>
    rw [List.cons_append, find?_cons_eq,
      if_neg (by simp [h₁ x (List.mem_cons_self x xs)]),
      ih (fun m hm => h₁ m (List.mem_cons_of_mem x hm))]

/-- Claim C8 as amended: When selecting a prequel/sequel edge among several
candidates, part_000's `pickEdge` chooses the first candidate whose format
is `"TV"` **or `"ONA"`** and falls back to the first candidate when none
qualifies, while anime.ts's `pickRelation` chooses the first entry whose
type is exactly `"TV"`, else the first entry. -/
theorem c8_amended :
    (∀ (edges : Option (List AniEdge)) (ty : String) (l₁ l₂ : List AniNodeRef)
        (nd : AniNodeRef),
        pickCandidates edges ty = l₁ ++ nd :: l₂ → isTvOrOna nd = true →
        (∀ m ∈ l₁, isTvOrOna m = false) → pickEdge edges ty = some nd)
    ∧ (∀ (edges : Option (List AniEdge)) (ty : String),
        (∀ m ∈ pickCandidates edges ty, isTvOrOna m = false) →
        pickEdge edges ty = (pickCandidates edges ty).head?)
    ∧ (∀ (r : JkRelation) (l₁ l₂ : List JkEntry) (e : JkEntry),
        r.entry = l₁ ++ e :: l₂ → (e.type' == some "TV") = true →
        (∀ m ∈ l₁, (m.type' == some "TV") = false) →
        pickRelation (some r) = some (e.mal_id, e.name))
    ∧ (∀ r : JkRelation, (∀ m ∈ r.entry, (m.type' == some "TV") = false) →
        pickRelation (some r) = r.entry.head?.map (fun c => (c.mal_id, c.name))) := by
  refine ⟨?_, ?_, ?_, ?_⟩
  · intro edges ty l₁ l₂ nd hdecomp htv hnone
    rw [pickEdge, hdecomp, find?_first_segment isTvOrOna l₁ l₂ nd htv hnone]
  · intro edges ty hall
    rw [pickEdge, List.find?_eq_none.2 (fun x hx => by simp [hall x hx])]
  · intro r l₁ l₂ e hdecomp htv hnone
    rw [pickRelation, hdecomp,
      find?_first_segment (fun x => x.type' == some "TV") l₁ l₂ e htv hnone]
  · intro r hall
    rw [pickRelation, List.find?_eq_none.2 (fun x hx => by simp [hall x hx])]
    rcases r.entry with _ | ⟨c, cs⟩ <;> rfl

/-- Witness for `c8_amended`: on the concrete SEQUEL edges
`[onaNode, tvNode]` the chosen node is the ONA one (first TV-or-ONA hit). -/
theorem c8_amended_witness :
    pickEdge demoEdges "SEQUEL" = some onaNode :=
  c8_amended.1 demoEdges "SEQUEL" [] [tvNode] onaNode (by decide) (by decide)
    (by simp)

/-- Claim C8 counterexample to the claim as stated: The claim
says the resolver prefers a candidate whose format equals `"TV"`; with
candidates `[ONA(id 5), TV(id 6)]`, `pickEdge` returns the ONA node even
though a TV candidate exists, because its predicate also accepts `"ONA"`. -/
theorem c8_counterexample :
    pickEdge demoEdges "SEQUEL" ≠ some tvNode ∧
      tvNode ∈ pickCandidates demoEdges "SEQUEL" ∧
      tvNode.format = some "TV" ∧
      (pickEdge demoEdges "SEQUEL").map (·.format) = some (some "ONA") := by
  decide

/-! ### Season-chain walk invariants -/

theorem p0Back_spec (graph : Int → Option AniMedia) :
    ∀ (fuel : Nat) (node : AniMedia) (seen : List Int) (back : List AniNodeRef),
      ∃ add : List AniNodeRef,
        (p0Back graph fuel node seen back).2 = back ++ add ∧
        (p0Back graph fuel node seen back).1 = (add.map (·.id)).reverse ++ seen ∧
        (add.map (·.id)).Nodup ∧
        (∀ r ∈ add, r.id ∉ seen) ∧
        add.length ≤ fuel := by
  intro fuel
  induction fuel with
  | zero =>
    intro node seen back
    exact ⟨[], by simp [p0Back], by simp [p0Back], by simp, by simp, by simp⟩
  | succ fuel ih =>
    intro node seen back
    rw [p0Back]
    rcases pickEdge node.relations "PREQUEL" with _ | prev
    · exact ⟨[], by simp, by simp, by simp, by simp, by simp⟩
    · dsimp only
      by_cases hseen : prev.id ∈ seen
      · rw [if_pos hseen]
        exact ⟨[], by simp, by simp, by simp, by simp, by simp⟩
      · rw [if_neg hseen]
        rcases graph prev.id with _ | node'
        · refine ⟨[prev], by simp, by simp, by simp, ?_, by simp⟩
          intro r hr
          rw [List.mem_singleton] at hr
          subst hr
          exact hseen
        · obtain ⟨add, h1, h2, h3, h4, h5⟩ := ih node' (prev.id :: seen) (back ++ [prev])
          refine ⟨prev :: add, ?_, ?_, ?_, ?_, ?_⟩
          · rw [h1, List.append_assoc, List.singleton_append]
          · rw [h2, List.map_cons, List.reverse_cons, List.append_assoc,
              List.singleton_append]
          · rw [List.map_cons]
            refine List.nodup_cons.2 ⟨?_, h3⟩
            intro hmem
            rcases List.mem_map.1 hmem with ⟨r, hr, hid⟩
            exact h4 r hr (hid ▸ List.mem_cons_self _ _)
          · intro r hr
            rcases List.mem_cons.1 hr with rfl | hr
            · exact hseen
            · exact fun hmem => h4 r hr (List.mem_cons_of_mem _ hmem)
          · simpa using Nat.succ_le_succ h5

theorem p0Fwd_spec (graph : Int → Option AniMedia) :
    ∀ (fuel : Nat) (node : AniMedia) (seen : List Int) (chain : List AniNodeRef),
      ∃ add : List AniNodeRef,
        (p0Fwd graph fuel node seen chain).2 = chain ++ add ∧
        (add.map (·.id)).Nodup ∧
        (∀ r ∈ add, r.id ∉ seen) ∧
        add.length ≤ fuel := by
  intro fuel
  induction fuel with
  | zero =>
    intro node seen chain
    exact ⟨[], by simp [p0Fwd], by simp, by simp, by simp⟩
  | succ fuel ih =>
    intro node seen chain
    rw [p0Fwd]
    rcases pickEdge node.relations "SEQUEL" with _ | next
    · exact ⟨[], by simp, by simp, by simp, by simp⟩
    · dsimp only
      by_cases hseen : next.id ∈ seen
      · rw [if_pos hseen]
        exact ⟨[], by simp, by simp, by simp, by simp⟩
      · rw [if_neg hseen]
        rcases graph next.id with _ | node'
        · refine ⟨[next], by simp, by simp, ?_, by simp⟩
          intro r hr
          rw [List.mem_singleton] at hr
          subst hr
          exact hseen
        · obtain ⟨add, h1, h3, h4, h5⟩ := ih node' (next.id :: seen) (chain ++ [next])
          refine ⟨next :: add, ?_, ?_, ?_, ?_⟩
          · rw [h1, List.append_assoc, List.singleton_append]
          · rw [List.map_cons]
            refine List.nodup_cons.2 ⟨?_, h3⟩
            intro hmem
            rcases List.mem_map.1 hmem with ⟨r, hr, hid⟩
            exact h4 r hr (hid ▸ List.mem_cons_self _ _)
          · intro r hr
            rcases List.mem_cons.1 hr with rfl | hr
            · exact hseen
            · exact fun hmem => h4 r hr (List.mem_cons_of_mem _ hmem)
          · simpa using Nat.succ_le_succ h5

theorem anBack_spec (graph : Int → Option JkAnime) :
    ∀ (fuel : Nat) (node : JkAnime) (seen back : List Int)
      (titles : List (Int × Option String)),
      ∃ add : List Int,
        (anBack graph fuel node seen back titles).2.1 = back ++ add ∧
        (anBack graph fuel node seen back titles).1 = add.reverse ++ seen ∧
        add.Nodup ∧
        (∀ x ∈ add, x ∉ seen) ∧
        add.length ≤ fuel := by
  intro fuel
  induction fuel with
  | zero =>
    intro node seen back titles
    exact ⟨[], by simp [anBack], by simp [anBack], by simp, by simp, by simp⟩
  | succ fuel ih =>
    intro node seen back titles
    rw [anBack]
    rcases pickRelation (jkFindRelation node "Prequel") with _ | pre
    · exact ⟨[], by simp, by simp, by simp, by simp, by simp⟩
    · dsimp only
      by_cases hseen : pre.1 ∈ seen
      · rw [if_pos hseen]
        exact ⟨[], by simp, by simp, by simp, by simp, by simp⟩
      · rw [if_neg hseen]
        rcases graph pre.1 with _ | full
        · refine ⟨[pre.1], by simp, by simp, by simp, ?_, by simp⟩
          intro x hx
          rw [List.mem_singleton] at hx
          subst hx
          exact hseen
        · obtain ⟨add, h1, h2, h3, h4, h5⟩ :=
            ih full (pre.1 :: seen) (back ++ [pre.1]) ((pre.1, jkTitle full) :: titles)
          refine ⟨pre.1 :: add, ?_, ?_, ?_, ?_, ?_⟩
          · rw [h1, List.append_assoc, List.singleton_append]
          · rw [h2, List.reverse_cons, List.append_assoc, List.singleton_append]
          · refine List.nodup_cons.2 ⟨?_, h3⟩
            intro hmem
            exact h4 pre.1 hmem (List.mem_cons_self _ _)
          · intro x hx
            rcases List.mem_cons.1 hx with rfl | hx
            · exact hseen
            · exact fun hmem => h4 x hx (List.mem_cons_of_mem _ hmem)
          · simpa using Nat.succ_le_succ h5

theorem anFwd_spec (graph : Int → Option JkAnime) :
    ∀ (fuel : Nat) (node : JkAnime) (seen chain : List Int)
      (titles : List (Int × Option String)),
      ∃ add : List Int,
        (anFwd graph fuel node seen chain titles).2.1 = chain ++ add ∧
        add.Nodup ∧
        (∀ x ∈ add, x ∉ seen) ∧
        add.length ≤ fuel := by
  intro fuel
  induction fuel with
  | zero =>
    intro node seen chain titles
    exact ⟨[], by simp [anFwd], by simp, by simp, by simp⟩
  | succ fuel ih =>
    intro node seen chain titles
    rw [anFwd]
    rcases pickRelation (jkFindRelation node "Sequel") with _ | sq
    · exact ⟨[], by simp, by simp, by simp, by simp⟩
    · dsimp only
      by_cases hseen : sq.1 ∈ seen
      · rw [if_pos hseen]
        exact ⟨[], by simp, by simp, by simp, by simp⟩
      · rw [if_neg hseen]
        rcases graph sq.1 with _ | full
        · exact ⟨[], by simp, by simp, by simp, by simp⟩
        · obtain ⟨add, h1, h3, h4, h5⟩ :=
            ih full (sq.1 :: seen) (chain ++ [sq.1]) ((sq.1, jkTitle full) :: titles)
          refine ⟨sq.1 :: add, ?_, ?_, ?_, ?_⟩
          · rw [h1, List.append_assoc, List.singleton_append]
          · refine List.nodup_cons.2 ⟨?_, h3⟩
            intro hmem
            exact h4 sq.1 hmem (List.mem_cons_self _ _)
          · intro x hx
            rcases List.mem_cons.1 hx with rfl | hx
            · exact hseen
            · exact fun hmem => h4 x hx (List.mem_cons_of_mem _ hmem)
          · simpa using Nat.succ_le_succ h5

/-- Claim C2 as amended: Both resolvers never accept a candidate whose id is
already in `seen`, so: part_000's `getInfo` chain (which initializes
`seen = {start.id}`, depth 3 each way) has pairwise-distinct ids and
length at most 7; anime.ts's `buildSeasonsChain` (which initializes `seen`
**empty**, depth 8 each way) has length at most 17 and ids pairwise
distinct *except that the start node's own id may reappear* — in a cyclic
graph a walk can re-accept it, since it was never put in `seen`. -/
theorem c2_amended (g1 : Int → Option AniMedia) (s1 : AniMedia)
    (g2 : Int → Option JkAnime) (s2 : JkAnime) :
    ((p0Chain g1 s1).map (·.id)).Nodup ∧ (p0Chain g1 s1).length ≤ 7 ∧
      (buildSeasonsChain g2 s2).1.length ≤ 17 ∧
      ((buildSeasonsChain g2 s2).1.filter (fun i => i != s2.mal_id)).Nodup := by
  obtain ⟨addB, hB1, hB2, hB3, hB4, hB5⟩ := p0Back_spec g1 3 s1 [s1.id] []
  obtain ⟨addF, hF1, hF3, hF4, hF5⟩ :=
    p0Fwd_spec g1 3 s1 (p0Back g1 3 s1 [s1.id] []).1
      ((p0Back g1 3 s1 [s1.id] []).2.reverse ++ [mediaRef s1])
  rw [hB2] at hF4
  rw [hB1] at hF1
  simp only [List.nil_append] at hF1
  have hchain : p0Chain g1 s1 = (addB.reverse ++ [mediaRef s1]) ++ addF := by
    simp only [p0Chain]
    rw [hB1]
    simp only [List.nil_append]
    rw [hF1, List.append_assoc]
  obtain ⟨addB2, hJ1, hJ2, hJ3, hJ4, hJ5⟩ :=
    anBack_spec g2 8 s2 [] [] [(s2.mal_id, jkTitle s2)]
  obtain ⟨addF2, hK1, hK3, hK4, hK5⟩ :=
    anFwd_spec g2 8 s2 (anBack g2 8 s2 [] [] [(s2.mal_id, jkTitle s2)]).1
      ((anBack g2 8 s2 [] [] [(s2.mal_id, jkTitle s2)]).2.1.reverse ++ [s2.mal_id])
      (anBack g2 8 s2 [] [] [(s2.mal_id, jkTitle s2)]).2.2
  rw [hJ2] at hK4
  simp only [List.append_nil] at hK4
  rw [hJ1] at hK1
  simp only [List.nil_append] at hK1
  have hchain2 : (buildSeasonsChain g2 s2).1 =
      (addB2.reverse ++ [s2.mal_id]) ++ addF2 := by
    simp only [buildSeasonsChain]
    rw [hJ1]
    simp only [List.nil_append]
    rw [hK1, List.append_assoc]
  have hB4' : ∀ y ∈ addB.map (·.id), y ≠ s1.id := by
    intro y hy
    rcases List.mem_map.1 hy with ⟨r, hr, rfl⟩
    intro hcon
    exact hB4 r hr (hcon ▸ List.mem_singleton.2 rfl)
  have hF4' : ∀ y ∈ addF.map (·.id),
      y ∉ (addB.map (·.id)).reverse ++ [s1.id] := by
    intro y hy
    rcases List.mem_map.1 hy with ⟨r, hr, rfl⟩
    exact hF4 r hr
  refine ⟨?_, ?_, ?_, ?_⟩
  · rw [hchain]
    simp only [List.map_append, List.map_reverse, List.map_cons, List.map_nil,
      mediaRef]
    rw [List.nodup_append]
    refine ⟨?_, hF3, ?_⟩
    · rw [List.nodup_append]
      refine ⟨List.nodup_reverse.2 hB3, List.nodup_singleton _, ?_⟩
      intro x hx hx'
      rw [List.mem_reverse] at hx
      rw [List.mem_singleton] at hx'
      exact hB4' x hx hx'
    · intro x hx hx'
      exact hF4' x hx' hx
  · rw [hchain]
    simp only [List.length_append, List.length_reverse, List.length_singleton]
    omega
  · rw [hchain2]
    simp only [List.length_append, List.length_reverse, List.length_singleton]
    omega
  · rw [hchain2]
    simp only [List.filter_append]
    have hmid : [s2.mal_id].filter (fun i => i != s2.mal_id) = [] := by
      simp
    rw [hmid, List.append_nil]
    rw [List.nodup_append]
    refine ⟨(List.nodup_reverse.2 hJ3).filter _, hK3.filter _, ?_⟩
    intro x hx hx'
    have hx1 : x ∈ addB2 :=
      List.mem_reverse.1 (List.mem_filter.1 hx).1
    have hx2 : x ∈ addF2 := (List.mem_filter.1 hx').1
    exact hK4 x hx2 (List.mem_reverse.2 hx1)

/-- Claim C2 counterexample to the claim as stated: On the
one-node cyclic graph where media 1 is its own Prequel,
`buildSeasonsChain` starts with `seen` empty (the claim says it is
initialized to `{S.id}`), re-accepts the start id from the backward walk,
and produces the chain `[1, 1]`, whose ids are not pairwise distinct. -/
theorem c2_counterexample :
    (buildSeasonsChain jkLoopGraph jkLoopNode).1 = [1, 1] ∧
      ¬ ((buildSeasonsChain jkLoopGraph jkLoopNode).1.Nodup) := by
  decide

/-- Claim C7 counterexample to the claim as stated:  At
`total = 0` (empty input at every provider) the code's
`last_visible_page = Math.max(1, Math.ceil(0 / 24)) = 1`, while the
claim's formula `ceil(total / pageSize)` gives `(0 + 24 - 1) / 24 = 0`. -/
theorem c7_counterexample :
    (buildPagination (reconcileList 1 ([] : List ProviderList)).length 1).last_visible_page
      ≠ ((reconcileList 1 ([] : List ProviderList)).length + perPage - 1) / perPage := by
  decide

end Koanime
